import Mathlib

/-!
Shallow embedding of `malt/classes.py` (the `Molecule` class that renders
Tripos MOL2 MOLECULE/ATOM/BOND blocks), together with theorems settling the
frozen claims about it.

Modelling conventions:
* RDKit atoms/bonds are modelled by the data the code reads off them:
  element symbol, atomic number, aromatic flag, the string form of the
  hybridization enum, 3-D position; bonds carry the two native atom indices
  and the string form of the bond-type enum.  The native index of an atom is
  its position in the `atoms` list (RDKit's `GetIdx`).
* Python runtime errors are made explicit with `Except PyError`.
* Python `float` is modelled exactly by `ℚ`; the decimal strings appearing in
  the claims denote the corresponding rationals (floating-point rounding is
  not part of any claim).
* the sorts (Python's stable `sorted`, pandas `sort_values`) are modelled by
  the stable `List.insertionSort`; on the atom rows the code makes the sort
  key strictly totally ordered so every algorithm agrees, and where ties are
  possible (bond rows) the claims only assert sortedness w.r.t. the key,
  which any sorting algorithm satisfies.
* Text rendering (`to_string`, `"%.3f"` formatting) is not modelled: the rows
  of the data frames, in their final order and with their assigned 1-based
  output numbers, stand for the emitted lines.
-/

namespace Malt

/-- Python runtime errors that the embedded code can raise, plus the two
error kinds named by the specification (`ParseError`, `StateError`) so that
claims about them can be stated. -/
inductive PyError where
  | keyError
  | indexError
  | valueError
  | nameError
  | attributeError
  | unboundLocal
  | typeError
  | parseError
  | stateError
  deriving DecidableEq, Repr

/-- An atom as the code reads it from the chemistry toolkit: `GetSymbol`,
`GetAtomicNum`, `GetIsAromatic`, `str(GetHybridization())`, and the conformer
position. -/
structure Atom where
  symbol : String
  atomicNum : Nat
  isAromatic : Bool
  hybridization : String
  x : ℚ
  y : ℚ
  z : ℚ
  deriving DecidableEq, Repr

/-- A bond: begin/end native atom indices and `str(GetBondType())`. -/
structure Bond where
  beginIdx : Nat
  endIdx : Nat
  bondType : String
  deriving DecidableEq, Repr

/-- An RDKit molecule, reduced to what the code reads from it. -/
structure Mol where
  atoms : List Atom
  bonds : List Bond
  deriving DecidableEq, Repr

/-- The module-level `bond_types` dictionary of `classes.py`. -/
def bond_types : List (String × String) :=
  [("AROMATIC", "ar"), ("SINGLE", "1"), ("DOUBLE", "2"), ("TRIPLE", "3")]

/-- The module-level `atom_types` dictionary of `classes.py`. -/
def atom_types : List (String × String) :=
  [("SP", "1"), ("SP2", "2"), ("SP3", "3"), ("AROMATIC", "ar"), ("S", "")]

/-- Python dictionary subscript `d[k]`: `KeyError` when the key is absent. -/
def dictGet {β : Type} (d : List (String × β)) (k : String) : Except PyError β :=
  match d.lookup k with
  | some v => Except.ok v
  | none => Except.error PyError.keyError

/-- Python list subscript `l[i]` with a `Nat` index: `IndexError` out of range. -/
def pyIndex {α : Type} (l : List α) (i : Nat) : Except PyError α :=
  match l[i]? with
  | some v => Except.ok v
  | none => Except.error PyError.indexError

/-- Python `list.index(x)`: first position of `x`, `ValueError` when absent. -/
def pyListIndex (l : List Nat) (x : Nat) : Except PyError Nat :=
  match l.indexOf? x with
  | some k => Except.ok k
  | none => Except.error PyError.valueError

/-- Split a character list at every occurrence of the separator, the
behavior of Python `str.split(sep)` — and of `csv.reader` per line — for the
single-character separators this program uses.  (Defined structurally so
that concrete runs reduce inside the kernel.) -/
def splitOnChar (sep : Char) : List Char → List (List Char)
  | [] => [[]]
  | c :: cs =>
      match splitOnChar sep cs with
      | [] => [[]]
      | cur :: rest =>
          if c = sep then [] :: cur :: rest else (c :: cur) :: rest

/-- Split a string at a separator character. -/
def splitString (s : String) (sep : Char) : List String :=
  (splitOnChar sep s.data).map String.mk

/-- Python `str.endswith`, computed structurally on the character lists. -/
def strEndsWith (s pat : String) : Bool :=
  pat.data.reverse.isPrefixOf s.data.reverse

/-- Membership test `k in d` on an insertion-ordered dictionary. -/
def hasKey {β : Type} (d : List (String × β)) (s : String) : Bool :=
  d.any (fun p => p.1 == s)

/-- The loop of `Molecule.elements` that builds `element_dict`: an
insertion-ordered map from element symbol to the atomic number of the first
atom bearing that symbol. -/
def elementDictAux (acc : List (String × Nat)) : List Atom → List (String × Nat)
  | [] => acc
  | a :: rest =>
      if hasKey acc a.symbol then elementDictAux acc rest
      else elementDictAux (acc ++ [(a.symbol, a.atomicNum)]) rest

/-- The `element_dict` of `Molecule.elements` before sorting. -/
def elementDict (m : Mol) : List (String × Nat) :=
  elementDictAux [] m.atoms

/-- Atomic number the molecule associates to a symbol (first occurrence),
used to state the ordering produced by `elements`. -/
def atomicNumberOf (m : Mol) (s : String) : Nat :=
  ((elementDict m).lookup s).getD 0

/-- Order on `element_dict` items used by `sorted(..., key=lambda item:
item[1])`: compare atomic numbers. -/
def elemValR (p q : String × Nat) : Prop := p.2 ≤ q.2

instance : DecidableRel elemValR :=
  fun p q => inferInstanceAs (Decidable (p.2 ≤ q.2))

instance : IsTotal (String × Nat) elemValR :=
  ⟨by intro a b; unfold elemValR; omega⟩

instance : IsTrans (String × Nat) elemValR :=
  ⟨by intro a b c; unfold elemValR; omega⟩

/-- `Molecule.elements`: distinct symbols sorted by ascending atomic number
(Python's `sorted` is a stable sort, modelled by `insertionSort`), then
`"H"` removed and appended at the end when present. -/
def elements (m : Mol) : List String :=
  let sortedDict := List.insertionSort elemValR (elementDict m)
  let es := sortedDict.map Prod.fst
  if "H" ∈ es then es.erase "H" ++ ["H"] else es

/-- Insertion step of `Molecule.elements_by_index`: append index `i` to the
entry of symbol `s`, creating the entry at the end when absent. -/
def ebiInsert (d : List (String × List Nat)) (s : String) (i : Nat) :
    List (String × List Nat) :=
  match d with
  | [] => [(s, [i])]
  | (s', is) :: rest =>
      if s' = s then (s', is ++ [i]) :: rest
      else (s', is) :: ebiInsert rest s i

/-- The loop of `Molecule.elements_by_index` over atoms paired with their
native indices. -/
def elementsByIndexAux (acc : List (String × List Nat)) :
    List (Nat × Atom) → List (String × List Nat)
  | [] => acc
  | (i, a) :: rest => elementsByIndexAux (ebiInsert acc a.symbol i) rest

/-- `Molecule.elements_by_index`: for each symbol, in first-seen order, the
native indices of the atoms bearing it, in native order. -/
def elementsByIndex (m : Mol) : List (String × List Nat) :=
  elementsByIndexAux [] m.atoms.enum

/-- One row of the `tripos_atom` data frame built by `Molecule.atom_block`
(the constant `substruct`/`substruct_name` columns and the `"%.3f"` text
formatting of the charge carry no claim content and are not modelled). -/
structure AtomRow where
  rdkitIndex : Nat
  atomName : String
  x : ℚ
  y : ℚ
  z : ℚ
  sybyl : String
  partialCharge : ℚ
  atomSymbol : String
  atomIndexLabel : Nat
  deriving DecidableEq, Repr

/-- Sybyl-type branch of the `atom_block` loop.  `prev` is the value the
Python local variable `sybyl` holds from the previous loop iteration: for a
non-aromatic carbon or nitrogen no branch assigns it, so the code silently
reuses the stale value, or raises `UnboundLocalError` when there is none. -/
def sybylFor (prev : Option String) (a : Atom) : Except PyError String :=
  if a.symbol = "C" ∨ a.symbol = "N" then
    if a.isAromatic then Except.ok (a.symbol ++ ".ar")
    else
      match prev with
      | some s => Except.ok s
      | none => Except.error PyError.unboundLocal
  else if a.symbol = "H" then Except.ok "H"
  else
    match dictGet atom_types a.hybridization with
    | Except.ok c => Except.ok (a.symbol ++ "." ++ c)
    | Except.error e => Except.error e

/-- The per-atom loop of `Molecule.atom_block` over atoms paired with their
native indices, threading the stale `sybyl` local through iterations.
Coordinates come from `self.coords[idx]`, which for the resolved molecule is
the conformer position of the atom itself. -/
def atomRowsAux (charges : List ℚ) (ebi : List (String × List Nat)) :
    Option String → List (Nat × Atom) → Except PyError (List AtomRow)
  | _, [] => Except.ok []
  | prev, (idx, a) :: rest =>
    match pyIndex charges idx with
    | Except.error e => Except.error e
    | Except.ok charge =>
      match dictGet ebi a.symbol with
      | Except.error e => Except.error e
      | Except.ok grp =>
        match pyListIndex grp idx with
        | Except.error e => Except.error e
        | Except.ok pos =>
          match sybylFor prev a with
          | Except.error e => Except.error e
          | Except.ok syb =>
            match atomRowsAux charges ebi (some syb) rest with
            | Except.error e => Except.error e
            | Except.ok rows =>
                Except.ok
                  ({ rdkitIndex := idx
                     atomName := a.symbol ++ toString (pos + 1)
                     x := a.x, y := a.y, z := a.z
                     sybyl := syb
                     partialCharge := charge
                     atomSymbol := a.symbol
                     atomIndexLabel := pos + 1 } :: rows)

/-- Sort key order of `atom_block`'s `sort_values(by=['atom_symbol',
'atom_index_label'])` after `atom_symbol` is made categorical over
`elements()`: position of the symbol in `elements()`, then the label.  The
code makes this key strictly totally ordered (distinct atoms of one symbol
get distinct labels, distinct symbols distinct positions), so every sort
algorithm yields the same result and `insertionSort` models pandas
faithfully. -/
def atomRowR (els : List String) (r1 r2 : AtomRow) : Prop :=
  els.indexOf r1.atomSymbol < els.indexOf r2.atomSymbol ∨
  (els.indexOf r1.atomSymbol = els.indexOf r2.atomSymbol ∧
    r1.atomIndexLabel ≤ r2.atomIndexLabel)

instance (els : List String) : DecidableRel (atomRowR els) :=
  fun _ _ => inferInstanceAs (Decidable (_ ∨ _))

instance (els : List String) : IsTotal AtomRow (atomRowR els) :=
  ⟨by intro a b; unfold atomRowR; omega⟩

instance (els : List String) : IsTrans AtomRow (atomRowR els) :=
  ⟨by intro a b c; unfold atomRowR; omega⟩

/-- `Molecule.atom_block`: build the rows, sort them, and return the sorted
rows (row `k` of the result, 0-based, is emitted with output atom ID `k+1`)
together with `index_lookup`, the native-index → output-row-number mapping
the code stores in a module-level global. -/
def atomBlock (m : Mol) (charges : List ℚ) :
    Except PyError (List AtomRow × List (Nat × Nat)) :=
  match atomRowsAux charges (elementsByIndex m) none m.atoms.enum with
  | Except.error e => Except.error e
  | Except.ok rows =>
      let sorted := List.insertionSort (atomRowR (elements m)) rows
      Except.ok (sorted, sorted.enum.map (fun p => (p.2.rdkitIndex, p.1 + 1)))

/-- One row of the `tripos_bond` data frame before index translation. -/
structure BondRow where
  beginAtomRdkit : Nat
  endAtomRdkit : Nat
  bondType : String
  deriving DecidableEq, Repr

/-- One translated bond row: begin/end output row numbers and bond-type
code. -/
structure TBondRow where
  beginRow : Nat
  endRow : Nat
  bondType : String
  deriving DecidableEq, Repr

/-- The per-bond loop of `Molecule.bond_block`: map the RDKit bond type
through `bond_types` (`KeyError` on an unmapped order). -/
def bondRowsAux : List Bond → Except PyError (List BondRow)
  | [] => Except.ok []
  | b :: rest =>
    match dictGet bond_types b.bondType with
    | Except.error e => Except.error e
    | Except.ok t =>
      match bondRowsAux rest with
      | Except.error e => Except.error e
      | Except.ok rows => Except.ok (⟨b.beginIdx, b.endIdx, t⟩ :: rows)

/-- Dictionary subscript on the `index_lookup` mapping (`KeyError` when the
native index is absent). -/
def lookupGet (lk : List (Nat × Nat)) (i : Nat) : Except PyError Nat :=
  match lk.lookup i with
  | some v => Except.ok v
  | none => Except.error PyError.keyError

/-- Translation of bond endpoints through `index_lookup` (the code fills the
`begin` column then the `end` column; translating row by row is equivalent
except for which of several failing lookups raises first, which no claim
distinguishes). -/
def translateBonds (lk : List (Nat × Nat)) : List BondRow → Except PyError (List TBondRow)
  | [] => Except.ok []
  | r :: rest =>
    match lookupGet lk r.beginAtomRdkit with
    | Except.error e => Except.error e
    | Except.ok b =>
      match lookupGet lk r.endAtomRdkit with
      | Except.error e => Except.error e
      | Except.ok en =>
        match translateBonds lk rest with
        | Except.error e => Except.error e
        | Except.ok rows => Except.ok (⟨b, en, r.bondType⟩ :: rows)

/-- Precedence rank of a bond-type code: its position in the categorical
order `["ar", "1", "2", "3"]` (`list(bond_types.values())`). -/
def bondTypeRank (t : String) : Nat :=
  (bond_types.map Prod.snd).indexOf t

/-- Sort key order of `bond_block`'s `sort_values(by=['bond_type',
'begin'])` with `bond_type` categorical over `["ar", "1", "2", "3"]`.
Rows with equal key may appear in any order under pandas' default quicksort;
the claims only assert sortedness w.r.t. this key, which every sorting
algorithm — in particular the stable `insertionSort` used here —
satisfies. -/
def bondRowR (r1 r2 : TBondRow) : Prop :=
  bondTypeRank r1.bondType < bondTypeRank r2.bondType ∨
  (bondTypeRank r1.bondType = bondTypeRank r2.bondType ∧
    r1.beginRow ≤ r2.beginRow)

instance : DecidableRel bondRowR :=
  fun _ _ => inferInstanceAs (Decidable (_ ∨ _))

instance : IsTotal TBondRow bondRowR :=
  ⟨by intro a b; unfold bondRowR; omega⟩

instance : IsTrans TBondRow bondRowR :=
  ⟨by intro a b c; unfold bondRowR; omega⟩

/-- `Molecule.bond_block`.  The code reads the module-level global
`index_lookup`; `globalLookup` is that global's current value, `none` when no
`atom_block` call has ever set it (then Python raises `NameError`).  Row `k`
of the result carries output bond number `k+1`. -/
def bondBlock (globalLookup : Option (List (Nat × Nat))) (m : Mol) :
    Except PyError (List (Nat × TBondRow)) :=
  match globalLookup with
  | none => Except.error PyError.nameError
  | some lk =>
    match bondRowsAux m.bonds with
    | Except.error e => Except.error e
    | Except.ok rows =>
      match translateBonds lk rows with
      | Except.error e => Except.error e
      | Except.ok trows =>
        let sorted := List.insertionSort bondRowR trows
        Except.ok (sorted.enum.map (fun p => (p.1 + 1, p.2)))

/-- Accumulate the decimal value of a digit string; `none` on a non-digit. -/
def parseDigitsAux : Nat → List Char → Option Nat
  | acc, [] => some acc
  | acc, c :: cs =>
      if c.isDigit then parseDigitsAux (acc * 10 + (c.toNat - 48)) cs
      else none

/-- Strip a leading sign off a character list, returning `-1` or `1`. -/
def stripSign : List Char → Int × List Char
  | '-' :: rest => (-1, rest)
  | '+' :: rest => (1, rest)
  | cs => (1, cs)

/-- Python `float(s)` on the plain decimal literals this program feeds it
(optional sign, integer part, optional fractional part), modelled exactly as
a rational; anything else is `ValueError`.  (Exponent / `inf` / `nan` forms
never occur in the claims and are not modelled.) -/
def pyFloat (s : String) : Except PyError ℚ :=
  let (sgn, body) := stripSign s.data
  match splitOnChar '.' body with
  | [ip] =>
      match ip, parseDigitsAux 0 ip with
      | _ :: _, some n => Except.ok (mkRat (sgn * (n : Int)) 1)
      | _, _ => Except.error PyError.valueError
  | [[], []] => Except.error PyError.valueError
  | [ip, fp] =>
      match parseDigitsAux 0 ip, parseDigitsAux 0 fp with
      | some n, some f =>
          Except.ok (mkRat (sgn * ((n * 10 ^ fp.length + f : Nat) : Int)) (10 ^ fp.length))
      | _, _ => Except.error PyError.valueError
  | _ => Except.error PyError.valueError

/-- Python `int(s)` on an optionally signed digit string, taken as a
character list. -/
def pyIntChars (cs : List Char) : Except PyError Int :=
  let (sgn, body) := stripSign cs
  match body, parseDigitsAux 0 body with
  | _ :: _, some n => Except.ok (sgn * (n : Int))
  | _, _ => Except.error PyError.valueError

/-- Python list subscript with an `Int` index: negative indices count from
the end; `IndexError` when out of range either way. -/
def pyIntIndex {α : Type} (l : List α) (i : Int) : Except PyError α :=
  let j : Int := if i < 0 then (l.length : Int) + i else i
  if j < 0 then Except.error PyError.indexError
  else
    match l[j.toNat]? with
    | some v => Except.ok v
    | none => Except.error PyError.indexError

/-- Parse every field of a CSV row with `float`. -/
def parseChargeRow : List String → Except PyError (List ℚ)
  | [] => Except.ok []
  | s :: rest =>
    match pyFloat s with
    | Except.error e => Except.error e
    | Except.ok q =>
      match parseChargeRow rest with
      | Except.error e => Except.error e
      | Except.ok qs => Except.ok (q :: qs)

/-- `Molecule.get_external_charges` on the lines of the charges file
(`csv.reader` yields, per line, its comma-separated fields): select row
`index - 1` (Python indexing) and parse each field as a float.  No check
relates the row length to the molecule's atom count. -/
def getExternalCharges (fileLines : List String) (index : Int) :
    Except PyError (List ℚ) :=
  let allCharges := fileLines.map (fun line => splitString line ',')
  match pyIntIndex allCharges (index - 1) with
  | Except.error e => Except.error e
  | Except.ok row => parseChargeRow row

/-- Environment of `Molecule.__init__`: what the filesystem/toolkit returns
for a path — `Chem.MolFromPDBFile` (`none` on parse failure), `mol_from_xyz`
(defined in `xyztomol`, treated as an external parser), and the text lines of
a charges file. -/
structure FS where
  pdbMol : String → Option Mol
  xyzMol : String → Mol
  fileLines : String → List String

/-- Python `os.path.basename`, on the character list of the path. -/
def basenameChars (p : String) : List Char :=
  ((splitOnChar '/' p.data).getLast?).getD []

/-- The characters of `os.path.basename(path_to_pdb)[:-4]`, the string the
code stores as `self.name`. -/
def pdbNameChars (p : String) : List Char :=
  (basenameChars p).take ((basenameChars p).length - 4)

/-- Locals accumulated by the argument loop of `Molecule.__init__`. -/
structure InitAcc where
  pathToXyz : Option String := none
  pdbMol : Option Mol := none
  xyzMol : Option Mol := none
  name : Option String := none
  index : Option Int := none
  chargesPath : Option String := none

/-- The `for arg in args` loop of `Molecule.__init__`: dispatch on the path
suffix; an argument that is neither `.pdb` nor `.xyz` is taken as the
charges path only when `CalculateCharges == False`.  `int(self.name[1:])`
can raise `ValueError`. -/
def initArgsLoop (fs : FS) (calcCharges : Bool) :
    InitAcc → List String → Except PyError InitAcc
  | acc, [] => Except.ok acc
  | acc, arg :: rest =>
    if strEndsWith arg ".pdb" then
      match pyIntChars ((pdbNameChars arg).drop 1) with
      | Except.error e => Except.error e
      | Except.ok ix =>
          initArgsLoop fs calcCharges
            { acc with pdbMol := fs.pdbMol arg,
                       name := some (String.mk (pdbNameChars arg)),
                       index := some ix } rest
    else if strEndsWith arg ".xyz" then
      initArgsLoop fs calcCharges
        { acc with pathToXyz := some arg, xyzMol := some (fs.xyzMol arg) } rest
    else if calcCharges = false then
      initArgsLoop fs calcCharges { acc with chargesPath := some arg } rest
    else
      initArgsLoop fs calcCharges acc rest

/-- The state of a successfully constructed `Molecule`. -/
structure MoleculeState where
  pathToXyz : Option String
  mol : Mol
  pdbMol : Option Mol
  xyzMol : Option Mol
  charges : List ℚ
  name : Option String
  index : Option Int
  numBonds : Nat
  numAtoms : Nat
  calculateCharges : Bool
  deriving Repr

/-- `Molecule.__init__`.  `gasteiger` abstracts RDKit's
`ComputeGasteigerCharges` followed by reading `_GasteigerCharge` off each
atom.  After the argument loop the code sets `self._mol = self._xyz_mol`
only when an XYZ molecule exists — `self._pdb_mol` is never promoted — and
then calls `self._mol.GetBonds()`, an `AttributeError` on `None` whenever no
XYZ path was given.  With `CalculateCharges=False`, a never-assigned
`path_to_charges` local raises `UnboundLocalError`, and `self.index - 1`
with `index` still `None` raises `TypeError` inside
`get_external_charges`. -/
def initMolecule (fs : FS) (gasteiger : Mol → List ℚ) (calcCharges : Bool)
    (args : List String) : Except PyError MoleculeState :=
  match initArgsLoop fs calcCharges {} args with
  | Except.error e => Except.error e
  | Except.ok acc =>
    match acc.xyzMol with
    | none => Except.error PyError.attributeError
    | some mo =>
      let mkState : List ℚ → MoleculeState := fun chgs =>
        { pathToXyz := acc.pathToXyz
          mol := mo
          pdbMol := acc.pdbMol
          xyzMol := acc.xyzMol
          charges := chgs
          name := acc.name
          index := acc.index
          numBonds := mo.bonds.length
          numAtoms := mo.atoms.length
          calculateCharges := calcCharges }
      if calcCharges then Except.ok (mkState (gasteiger mo))
      else
        match acc.chargesPath with
        | none => Except.error PyError.unboundLocal
        | some cp =>
          match acc.index with
          | none => Except.error PyError.typeError
          | some ix =>
            match getExternalCharges (fs.fileLines cp) ix with
            | Except.error e => Except.error e
            | Except.ok chgs => Except.ok (mkState chgs)

/-- The `coords` property: positions of the XYZ molecule when present, else
of `self._mol`. -/
def MoleculeState.coords (st : MoleculeState) : List (ℚ × ℚ × ℚ) :=
  match st.xyzMol with
  | some xm => xm.atoms.map (fun a => (a.x, a.y, a.z))
  | none => st.mol.atoms.map (fun a => (a.x, a.y, a.z))

/-! Concrete fixtures used by the evaluation theorems and witnesses. -/

/-- Non-aromatic sp3 oxygen. -/
def atomO : Atom := ⟨"O", 8, false, "SP3", 0, 0, 0⟩

/-- Hydrogen. -/
def atomH : Atom := ⟨"H", 1, false, "S", 1, 0, 0⟩

/-- Non-aromatic sp3 carbon. -/
def atomC : Atom := ⟨"C", 6, false, "SP3", 2, 0, 0⟩

/-- Aromatic carbon. -/
def atomCar : Atom := ⟨"C", 6, true, "AROMATIC", 3, 0, 0⟩

/-- Water: O at native index 0, two H atoms. -/
def water : Mol := ⟨[atomO, atomH, atomH], [⟨0, 1, "SINGLE"⟩, ⟨0, 2, "SINGLE"⟩]⟩

/-- A hydrogen followed by a non-aromatic carbon. -/
def molHC : Mol := ⟨[atomH, atomC], []⟩

/-- A lone non-aromatic carbon. -/
def molConly : Mol := ⟨[atomC], []⟩

/-- Oxygen then hydrogen, no bonds. -/
def molOH : Mol := ⟨[atomO, atomH], []⟩

/-- Hydrogen then oxygen, one single bond. -/
def molHO : Mol := ⟨[atomH, atomO], [⟨0, 1, "SINGLE"⟩]⟩

/-- A stand-in for the Gasteiger pass: zero charge per atom. -/
def gasteigerZero : Mol → List ℚ := fun mo => mo.atoms.map (fun _ => 0)

/-- Filesystem fixture: every XYZ path parses to `water`, every charges file
has the single row `"0.1,0.2"`, PDB parsing yields nothing. -/
def fsWater : FS := ⟨fun _ => none, fun _ => water, fun _ => ["0.1,0.2"]⟩

/-- C4: with charge computation disabled, `get_external_charges` selects the
CSV row at position `index - 1` and parses each comma-separated field as a
float (modelled exactly by the denoted rational): whenever row `index - 1`
exists and all its fields parse, the resulting charge sequence — stored by
`__init__` as `self.charges` — is exactly that parsed row. -/
theorem getExternalCharges_selects_row (lines : List String) (i : Int)
    (row : List String) (qs : List ℚ)
    (hnn : 0 ≤ i - 1)
    (hrow : (lines.map (fun line => splitString line ','))[(i - 1).toNat]? = some row)
    (hparse : parseChargeRow row = Except.ok qs) :
    getExternalCharges lines i = Except.ok qs := by
  have h1 : ¬ i - 1 < 0 := by omega
  simp only [getExternalCharges, pyIntIndex, if_neg h1]
  rw [hrow]
  exact hparse

/-- Witness for C4 at the specification's example: the 3-atom molecule has
index 2, the file has rows `"0.1,0.2,0.3"` and `"0.4,0.5,0.6"`, and the
second row is parsed to the rationals 4/10, 5/10, 6/10. -/
theorem getExternalCharges_selects_row_witness :
    getExternalCharges ["0.1,0.2,0.3", "0.4,0.5,0.6"] 2
      = Except.ok [mkRat 2 5, mkRat 1 2, mkRat 3 5] :=
  getExternalCharges_selects_row ["0.1,0.2,0.3", "0.4,0.5,0.6"] 2
    ["0.4", "0.5", "0.6"] [mkRat 2 5, mkRat 1 2, mkRat 3 5]
    (by omega) rfl rfl

/-- Characterization of construction from a PDB path followed by an XYZ path
with charge computation enabled: the resolved molecule, and with it every
downstream quantity, is the XYZ parse; the PDB parse is merely stored. -/
theorem initMolecule_pdb_xyz (fs : FS) (g : Mol → List ℚ)
    (pdbPath xyzPath : String)
    (hp : strEndsWith pdbPath ".pdb" = true)
    (hx1 : strEndsWith xyzPath ".pdb" = false)
    (hx2 : strEndsWith xyzPath ".xyz" = true) :
    initMolecule fs g true [pdbPath, xyzPath] =
      match pyIntChars ((pdbNameChars pdbPath).drop 1) with
      | Except.error e => Except.error e
      | Except.ok ix =>
          Except.ok
            { pathToXyz := some xyzPath
              mol := fs.xyzMol xyzPath
              pdbMol := fs.pdbMol pdbPath
              xyzMol := some (fs.xyzMol xyzPath)
              charges := g (fs.xyzMol xyzPath)
              name := some (String.mk (pdbNameChars pdbPath))
              index := some ix
              numBonds := (fs.xyzMol xyzPath).bonds.length
              numAtoms := (fs.xyzMol xyzPath).atoms.length
              calculateCharges := true } := by
  cases hi : pyIntChars ((pdbNameChars pdbPath).drop 1) with
  | error e =>
      simp only [initMolecule, initArgsLoop, hp, hx1, hx2, Bool.false_eq_true, if_true,
        if_false, hi]
  | ok ix =>
      simp only [initMolecule, initArgsLoop, hp, hx1, hx2, Bool.false_eq_true, if_true,
        if_false, hi]

/-- C5: when both a PDB and an XYZ path are supplied, the XYZ-derived
structure is authoritative for everything downstream — the resolved
molecule, atom/bond counts, the `coords` accessor, and the charge
computation are all functions of the XYZ parse alone (first conjunct:
changing what the PDB file parses to does not change any of them; second
conjunct: each equals the corresponding value computed from the XYZ
molecule). -/
theorem xyz_takes_precedence_over_pdb (fs fs' : FS) (g : Mol → List ℚ)
    (pdbPath xyzPath : String)
    (hp : strEndsWith pdbPath ".pdb" = true)
    (hx1 : strEndsWith xyzPath ".pdb" = false)
    (hx2 : strEndsWith xyzPath ".xyz" = true)
    (hagree : fs'.xyzMol xyzPath = fs.xyzMol xyzPath) :
    (initMolecule fs g true [pdbPath, xyzPath]).map
        (fun st => (st.mol, st.coords, st.charges, st.numAtoms, st.numBonds))
      = (initMolecule fs' g true [pdbPath, xyzPath]).map
        (fun st => (st.mol, st.coords, st.charges, st.numAtoms, st.numBonds)) ∧
    ∀ st, initMolecule fs g true [pdbPath, xyzPath] = Except.ok st →
      st.mol = fs.xyzMol xyzPath ∧
      st.xyzMol = some (fs.xyzMol xyzPath) ∧
      st.coords = (fs.xyzMol xyzPath).atoms.map (fun a => (a.x, a.y, a.z)) ∧
      st.charges = g (fs.xyzMol xyzPath) ∧
      st.numAtoms = (fs.xyzMol xyzPath).atoms.length ∧
      st.numBonds = (fs.xyzMol xyzPath).bonds.length := by
  rw [initMolecule_pdb_xyz fs g pdbPath xyzPath hp hx1 hx2,
    initMolecule_pdb_xyz fs' g pdbPath xyzPath hp hx1 hx2]
  constructor
  · cases pyIntChars ((pdbNameChars pdbPath).drop 1) with
    | error e => rfl
    | ok ix => rw [hagree]; rfl
  · intro st hst
    cases hi : pyIntChars ((pdbNameChars pdbPath).drop 1) with
    | error e => rw [hi] at hst; exact (Except.noConfusion hst)
    | ok ix =>
        rw [hi] at hst
        injection hst with hst
        subst hst
        simp [MoleculeState.coords]

/-- Second filesystem fixture for the C5 witness: agrees with `fsWater` on
XYZ parsing but returns a different PDB parse. -/
def fsWaterPdb : FS := ⟨fun _ => some molHO, fun _ => water, fun _ => ["0.1,0.2"]⟩

/-- Witness for C5: with `fsWater` and `fsWaterPdb` (identical XYZ parses,
different PDB parses) the downstream projection of construction agrees, and
the constructed state is characterized by the XYZ molecule `water`. -/
theorem xyz_takes_precedence_over_pdb_witness :
    (initMolecule fsWater gasteigerZero true ["m2.pdb", "a.xyz"]).map
        (fun st => (st.mol, st.coords, st.charges, st.numAtoms, st.numBonds))
      = (initMolecule fsWaterPdb gasteigerZero true ["m2.pdb", "a.xyz"]).map
        (fun st => (st.mol, st.coords, st.charges, st.numAtoms, st.numBonds)) ∧
    ∀ st, initMolecule fsWater gasteigerZero true ["m2.pdb", "a.xyz"] = Except.ok st →
      st.mol = fsWater.xyzMol "a.xyz" ∧
      st.xyzMol = some (fsWater.xyzMol "a.xyz") ∧
      st.coords = (fsWater.xyzMol "a.xyz").atoms.map (fun a => (a.x, a.y, a.z)) ∧
      st.charges = gasteigerZero (fsWater.xyzMol "a.xyz") ∧
      st.numAtoms = (fsWater.xyzMol "a.xyz").atoms.length ∧
      st.numBonds = (fsWater.xyzMol "a.xyz").bonds.length :=
  xyz_takes_precedence_over_pdb fsWater fsWaterPdb gasteigerZero "m2.pdb" "a.xyz"
    rfl rfl rfl rfl

/-- C6: for the molecule with atoms `[H, non-aromatic C]`, `atom_block()`
does not raise anything, let alone a `ParseError`: the sybyl branch assigns
nothing for a non-aromatic carbon/nitrogen, so the carbon row silently
reuses the stale value `"H"` left over from the hydrogen iteration (rows
listed in output order: the carbon row first).  With the non-aromatic carbon
as first atom the local is unbound and the code dies with
`UnboundLocalError`, again not a `ParseError`. -/
theorem atomBlock_nonaromatic_carbon_stale_sybyl :
    (atomBlock molHC [0, 0]).map (fun p => p.1.map (fun r => (r.atomSymbol, r.sybyl)))
        = Except.ok [("C", "H"), ("H", "H")] ∧
    atomBlock molConly [0] = Except.error PyError.unboundLocal ∧
    PyError.unboundLocal ≠ PyError.parseError := by
  exact ⟨rfl, rfl, by decide⟩

/-- C7: constructing a `Molecule` with no arguments fails with the
`AttributeError` coming from `self._mol.GetBonds()` on `None` (the source
never validates the missing structure), not with a `ParseError`. -/
theorem initMolecule_no_paths_attributeError (fs : FS) (g : Mol → List ℚ) (cc : Bool) :
    initMolecule fs g cc [] = Except.error PyError.attributeError ∧
    PyError.attributeError ≠ PyError.parseError :=
  ⟨rfl, by decide⟩

/-- Witness for C7 at a concrete environment: no arguments, charge
computation enabled. -/
theorem initMolecule_no_paths_attributeError_witness :
    initMolecule fsWater gasteigerZero true [] = Except.error PyError.attributeError ∧
    PyError.attributeError ≠ PyError.parseError :=
  initMolecule_no_paths_attributeError fsWater gasteigerZero true

/-- C8: with charge computation disabled, a selected CSV row of length 2 is
stored unchecked as the charge sequence of the 3-atom molecule `water`; the
construction succeeds instead of raising a `ParseError`. -/
theorem initMolecule_charge_row_length_mismatch_accepted :
    (initMolecule fsWater gasteigerZero false ["m1.pdb", "a.xyz", "chg.csv"]).map
        (fun st => (st.numAtoms, st.charges.length))
      = Except.ok (3, 2) := rfl

/-- C9: calling `bond_block()` while the module-level `index_lookup` global
has never been set raises Python's `NameError`, not a `StateError`. -/
theorem bondBlock_before_atomBlock_nameError (m : Mol) :
    bondBlock none m = Except.error PyError.nameError ∧
    PyError.nameError ≠ PyError.stateError :=
  ⟨rfl, by decide⟩

/-- Witness for C9 at the concrete molecule `molHO`. -/
theorem bondBlock_before_atomBlock_nameError_witness :
    bondBlock none molHO = Except.error PyError.nameError ∧
    PyError.nameError ≠ PyError.stateError :=
  bondBlock_before_atomBlock_nameError molHO

/-- C10: the native-to-output mapping is a process-wide global, so instances
do share mutable state: `molOH`'s `atom_block()` leaves the mapping
`[(0, 1), (1, 2)]`, `molHO`'s own mapping is `[(1, 1), (0, 2)]`, and
`molHO`'s `bond_block()` returns different rows under the two globals —
calling `atom_block()` on one instance does change `bond_block()` on the
other. -/
theorem bondBlock_uses_shared_global_lookup :
    (atomBlock molOH [0, 0]).map Prod.snd = Except.ok [(0, 1), (1, 2)] ∧
    (atomBlock molHO [0, 0]).map Prod.snd = Except.ok [(1, 1), (0, 2)] ∧
    bondBlock (some [(0, 1), (1, 2)]) molHO = Except.ok [(1, ⟨1, 2, "1"⟩)] ∧
    bondBlock (some [(1, 1), (0, 2)]) molHO = Except.ok [(1, ⟨2, 1, "1"⟩)] ∧
    (Except.ok [(1, (⟨1, 2, "1"⟩ : TBondRow))] : Except PyError (List (Nat × TBondRow)))
      ≠ Except.ok [(1, ⟨2, 1, "1"⟩)] := by
  refine ⟨rfl, rfl, rfl, rfl, ?_⟩
  simp

/-- The rows built by the `atom_block` loop carry exactly the native indices
of the traversed (index, atom) list, in order. -/
theorem atomRowsAux_map_rdkitIndex (charges : List ℚ)
    (ebi : List (String × List Nat)) :
    ∀ (l : List (Nat × Atom)) (prev : Option String) (rows : List AtomRow),
      atomRowsAux charges ebi prev l = Except.ok rows →
      rows.map AtomRow.rdkitIndex = l.map Prod.fst := by
  intro l
  induction l with
  | nil =>
      intro prev rows h
      simp only [atomRowsAux] at h
      injection h with h
      subst h
      rfl
  | cons p rest ih =>
      intro prev rows h
      obtain ⟨idx, a⟩ := p
      simp only [atomRowsAux] at h
      repeat' split at h
      any_goals exact (Except.noConfusion h)
      rename_i rows0 heq
      injection h with h
      subst h
      simp only [List.map_cons]
      rw [ih _ rows0 heq]

/-- C1: for every molecule and charge list on which `atom_block()` succeeds,
the `index_lookup` mapping it builds is a bijection from the native atom
indices `[0, atom_count)` onto the output positions `[1, atom_count]`: read
as an association list, its key column is a permutation of
`[0, ..., atom_count - 1]` and its value column is exactly
`[1, ..., atom_count]` in order, so each native index is paired with exactly
one output position and every output position is hit. -/
theorem atomBlock_lookup_bijection (m : Mol) (charges : List ℚ)
    (rows : List AtomRow) (lk : List (Nat × Nat))
    (h : atomBlock m charges = Except.ok (rows, lk)) :
    (lk.map Prod.fst).Perm (List.range m.atoms.length) ∧
    lk.map Prod.snd = (List.range m.atoms.length).map (fun k => k + 1) := by
  simp only [atomBlock] at h
  cases h0 : atomRowsAux charges (elementsByIndex m) none m.atoms.enum with
  | error e => rw [h0] at h; exact (Except.noConfusion h)
  | ok rows0 =>
      rw [h0] at h
      injection h with h
      have hlk : (List.insertionSort (atomRowR (elements m)) rows0).enum.map
          (fun p => (p.2.rdkitIndex, p.1 + 1)) = lk := congrArg Prod.snd h
      have hmap : rows0.map AtomRow.rdkitIndex = m.atoms.enum.map Prod.fst :=
        atomRowsAux_map_rdkitIndex charges (elementsByIndex m) m.atoms.enum none rows0 h0
      have hperm : (List.insertionSort (atomRowR (elements m)) rows0).Perm rows0 :=
        List.perm_insertionSort _ _
      have hlen0 : rows0.length = m.atoms.length := by
        have hc := congrArg List.length hmap
        simpa [List.enum_length] using hc
      have hlensorted : (List.insertionSort (atomRowR (elements m)) rows0).length
          = m.atoms.length := by
        rw [hperm.length_eq, hlen0]
      constructor
      · have e1 : lk.map Prod.fst
            = (List.insertionSort (atomRowR (elements m)) rows0).map AtomRow.rdkitIndex := by
          rw [← hlk, List.map_map]
          have hco : (Prod.fst ∘ fun p : Nat × AtomRow => (p.2.rdkitIndex, p.1 + 1))
              = AtomRow.rdkitIndex ∘ Prod.snd := rfl
          rw [hco, ← List.map_map, List.enum_map_snd]
        have p1 := hperm.map AtomRow.rdkitIndex
        rw [hmap, List.enum_map_fst] at p1
        rw [e1]
        exact p1
      · have e2 : lk.map Prod.snd
            = (List.range (List.insertionSort (atomRowR (elements m)) rows0).length).map
                (fun k => k + 1) := by
          rw [← hlk, List.map_map]
          have hco : (Prod.snd ∘ fun p : Nat × AtomRow => (p.2.rdkitIndex, p.1 + 1))
              = (fun k => k + 1) ∘ Prod.fst := rfl
          rw [hco, ← List.map_map, List.enum_map_fst]
        rw [e2, hlensorted]

/-- Rows of `atom_block` on `molOH`, used by the C1 witness. -/
def rowsOH : List AtomRow :=
  [⟨0, "O1", 0, 0, 0, "O.3", 0, "O", 1⟩, ⟨1, "H1", 1, 0, 0, "H", 0, "H", 1⟩]

/-- Witness for C1 at the two-atom molecule `molOH`: `atom_block` succeeds
with the mapping `[(0, 1), (1, 2)]`, whose keys are a permutation of
`range 2` and whose values are `[1, 2]`. -/
theorem atomBlock_lookup_bijection_witness :
    (([(0, 1), (1, 2)] : List (Nat × Nat)).map Prod.fst).Perm
        (List.range molOH.atoms.length) ∧
    ([(0, 1), (1, 2)] : List (Nat × Nat)).map Prod.snd
      = (List.range molOH.atoms.length).map (fun k => k + 1) :=
  atomBlock_lookup_bijection molOH [0, 0] rowsOH [(0, 1), (1, 2)] rfl

/-- When every bond's RDKit type is a key of `bond_types`, the per-bond loop
of `bond_block` succeeds, preserving the endpoint indices in order. -/
theorem bondRowsAux_ok (bonds : List Bond)
    (htypes : ∀ b ∈ bonds, (bond_types.lookup b.bondType).isSome = true) :
    ∃ rows, bondRowsAux bonds = Except.ok rows ∧
      rows.map (fun r => (r.beginAtomRdkit, r.endAtomRdkit))
        = bonds.map (fun b => (b.beginIdx, b.endIdx)) := by
  induction bonds with
  | nil => exact ⟨[], rfl, rfl⟩
  | cons b rest ih =>
      obtain ⟨t, ht⟩ := Option.isSome_iff_exists.mp (htypes b (List.mem_cons_self b rest))
      obtain ⟨rows, hr, hmap⟩ := ih (fun x hx => htypes x (List.mem_cons_of_mem b hx))
      refine ⟨⟨b.beginIdx, b.endIdx, t⟩ :: rows, ?_, ?_⟩
      · simp only [bondRowsAux, dictGet, ht, hr]
      · simp only [List.map_cons, hmap]

/-- When the index mapping covers every endpoint, the translation step of
`bond_block` succeeds with one output row per bond row. -/
theorem translateBonds_ok (lk : List (Nat × Nat)) (rows : List BondRow)
    (hcov : ∀ r ∈ rows, (lk.lookup r.beginAtomRdkit).isSome = true ∧
      (lk.lookup r.endAtomRdkit).isSome = true) :
    ∃ trows, translateBonds lk rows = Except.ok trows ∧ trows.length = rows.length := by
  induction rows with
  | nil => exact ⟨[], rfl, rfl⟩
  | cons r rest ih =>
      obtain ⟨hb, he⟩ := hcov r (List.mem_cons_self r rest)
      obtain ⟨bv, hbv⟩ := Option.isSome_iff_exists.mp hb
      obtain ⟨ev, hev⟩ := Option.isSome_iff_exists.mp he
      obtain ⟨trows, htr, hlen⟩ := ih (fun x hx => hcov x (List.mem_cons_of_mem r hx))
      refine ⟨⟨bv, ev, r.bondType⟩ :: trows, ?_, ?_⟩
      · simp only [translateBonds, lookupGet, hbv, hev, htr]
      · simp only [List.length_cons, hlen]

/-- C2: for a molecule whose bonds all carry a mapped RDKit order (aromatic,
single, double or triple) and an `index_lookup` covering every endpoint,
`bond_block()` succeeds, its output rows are sorted by bond-type code in the
fixed precedence `ar, 1, 2, 3` and then by the begin atom's output row
number ascending (the relation `bondRowR`), and the output bond numbers
attached to the rows are exactly `1..M` in this sorted order. -/
theorem bondBlock_sorted_numbered (m : Mol) (lk : List (Nat × Nat))
    (htypes : ∀ b ∈ m.bonds, (bond_types.lookup b.bondType).isSome = true)
    (hcov : ∀ b ∈ m.bonds, (lk.lookup b.beginIdx).isSome = true ∧
      (lk.lookup b.endIdx).isSome = true) :
    ∃ out, bondBlock (some lk) m = Except.ok out ∧
      out.map Prod.fst = (List.range m.bonds.length).map (fun k => k + 1) ∧
      List.Pairwise (fun p q : Nat × TBondRow => bondRowR p.2 q.2) out := by
  obtain ⟨rows, hr, hmap⟩ := bondRowsAux_ok m.bonds htypes
  have hcov2 : ∀ r ∈ rows, (lk.lookup r.beginAtomRdkit).isSome = true ∧
      (lk.lookup r.endAtomRdkit).isSome = true := by
    intro r hrmem
    have hmem2 : (r.beginAtomRdkit, r.endAtomRdkit)
        ∈ rows.map (fun r => (r.beginAtomRdkit, r.endAtomRdkit)) :=
      List.mem_map_of_mem _ hrmem
    rw [hmap] at hmem2
    obtain ⟨b, hb, heq⟩ := List.mem_map.mp hmem2
    have h1 := (hcov b hb).1
    have h2 := (hcov b hb).2
    have e1 : b.beginIdx = r.beginAtomRdkit := congrArg Prod.fst heq
    have e2 : b.endIdx = r.endAtomRdkit := congrArg Prod.snd heq
    rw [e1] at h1
    rw [e2] at h2
    exact ⟨h1, h2⟩
  obtain ⟨trows, htr, hlen⟩ := translateBonds_ok lk rows hcov2
  have hlenr : rows.length = m.bonds.length := by
    have hc := congrArg List.length hmap
    simpa using hc
  refine ⟨(List.insertionSort bondRowR trows).enum.map (fun p => (p.1 + 1, p.2)),
    ?_, ?_, ?_⟩
  · simp only [bondBlock, hr, htr]
  · rw [List.map_map]
    have hco : (Prod.fst ∘ fun p : Nat × TBondRow => (p.1 + 1, p.2))
        = (fun k => k + 1) ∘ Prod.fst := rfl
    rw [hco, ← List.map_map, List.enum_map_fst,
      (List.perm_insertionSort bondRowR trows).length_eq, hlen, hlenr]
  · have hsorted : List.Pairwise bondRowR (List.insertionSort bondRowR trows) :=
      List.sorted_insertionSort bondRowR trows
    have hsnd : List.Pairwise bondRowR
        ((List.insertionSort bondRowR trows).enum.map Prod.snd) := by
      rw [List.enum_map_snd]
      exact hsorted
    exact List.pairwise_map.mpr (List.pairwise_map.mp hsnd)

/-- Two-bond molecule fixture for the C2 witness: one single bond and one
aromatic bond, inserted in that (unsorted) order. -/
def molBonds : Mol := ⟨[atomCar, atomCar], [⟨0, 1, "SINGLE"⟩, ⟨1, 0, "AROMATIC"⟩]⟩

/-- Witness for C2 at `molBonds` with the mapping `[(0, 1), (1, 2)]`: the
aromatic bond is listed first despite being inserted second, and the rows
are numbered 1, 2. -/
theorem bondBlock_sorted_numbered_witness :
    ∃ out, bondBlock (some [(0, 1), (1, 2)]) molBonds = Except.ok out ∧
      out.map Prod.fst = (List.range molBonds.bonds.length).map (fun k => k + 1) ∧
      List.Pairwise (fun p q : Nat × TBondRow => bondRowR p.2 q.2) out :=
  bondBlock_sorted_numbered molBonds [(0, 1), (1, 2)] (by decide) (by decide)

/-- Key membership in an association list matches the Boolean `in` test. -/
theorem hasKey_iff {β : Type} (d : List (String × β)) (s : String) :
    hasKey d s = true ↔ s ∈ d.map Prod.fst := by
  simp only [hasKey, List.any_eq_true, beq_iff_eq, List.mem_map]

/-- Membership in the keys of the `element_dict` loop: a symbol is a key of
the result iff it is a key of the accumulator or the symbol of some
remaining atom. -/
theorem elementDictAux_mem :
    ∀ (l : List Atom) (acc : List (String × Nat)) (s : String),
      s ∈ (elementDictAux acc l).map Prod.fst ↔
        s ∈ acc.map Prod.fst ∨ s ∈ l.map Atom.symbol := by
  intro l
  induction l with
  | nil =>
      intro acc s
      simp [elementDictAux]
  | cons a rest ih =>
      intro acc s
      by_cases hk : hasKey acc a.symbol = true
      · simp only [elementDictAux]
        rw [if_pos hk, ih]
        have hmem := (hasKey_iff acc a.symbol).mp hk
        simp only [List.map_cons, List.mem_cons]
        constructor
        · rintro (h | h)
          · exact Or.inl h
          · exact Or.inr (Or.inr h)
        · rintro (h | h | h)
          · exact Or.inl h
          · exact Or.inl (h ▸ hmem)
          · exact Or.inr h
      · simp only [elementDictAux]
        rw [if_neg hk, ih]
        simp only [List.map_append, List.map_cons, List.map_nil, List.mem_append,
          List.mem_singleton, List.mem_cons]
        tauto

/-- The `element_dict` loop preserves distinctness of keys. -/
theorem elementDictAux_nodup :
    ∀ (l : List Atom) (acc : List (String × Nat)),
      (acc.map Prod.fst).Nodup → ((elementDictAux acc l).map Prod.fst).Nodup := by
  intro l
  induction l with
  | nil =>
      intro acc h
      simpa [elementDictAux] using h
  | cons a rest ih =>
      intro acc h
      by_cases hk : hasKey acc a.symbol = true
      · simp only [elementDictAux]
        rw [if_pos hk]
        exact ih acc h
      · simp only [elementDictAux]
        rw [if_neg hk]
        apply ih
        rw [List.map_append]
        refine List.Nodup.append h (by simp) ?_
        intro x hx hx2
        simp only [List.map_cons, List.map_nil, List.mem_singleton] at hx2
        subst hx2
        exact hk ((hasKey_iff acc a.symbol).mpr hx)

/-- On an association list with distinct keys, membership determines
`lookup`. -/
theorem lookup_eq_of_mem_of_nodup {β : Type} :
    ∀ (d : List (String × β)) (s : String) (v : β),
      (d.map Prod.fst).Nodup → (s, v) ∈ d → d.lookup s = some v := by
  intro d
  induction d with
  | nil =>
      intro s v _ h
      cases h
  | cons p rest ih =>
      intro s v hnd hmem
      obtain ⟨k, b⟩ := p
      rw [List.map_cons] at hnd
      obtain ⟨hph, hpt⟩ := List.nodup_cons.mp hnd
      rcases List.mem_cons.mp hmem with h | h
      · injection h with h1 h2
        subst h1
        subst h2
        simp [List.lookup]
      · have hne : (s == k) = false := by
          refine beq_eq_false_iff_ne.mpr ?_
          intro he
          apply hph
          rw [← he]
          exact (List.mem_map).mpr ⟨(s, v), h, rfl⟩
        simp only [List.lookup, hne]
        exact ih s v hpt h

/-- C3: `elements()` returns each distinct element symbol exactly once — no
duplicates, and a symbol appears iff some atom bears it — ordered by
ascending atomic number among the non-hydrogen symbols, and with `"H"`
placed last whenever hydrogen is present, regardless of its atomic
number. -/
theorem elements_distinct_sorted_H_last (m : Mol) :
    (elements m).Nodup ∧
    (∀ s, s ∈ elements m ↔ s ∈ m.atoms.map Atom.symbol) ∧
    List.Pairwise (fun s t => atomicNumberOf m s ≤ atomicNumberOf m t)
      ((elements m).filter (fun s => s ≠ "H")) ∧
    ("H" ∈ m.atoms.map Atom.symbol → (elements m).getLast? = some "H") := by
  have hdn : ((elementDict m).map Prod.fst).Nodup :=
    elementDictAux_nodup m.atoms [] (by simp)
  have hperm : (List.insertionSort elemValR (elementDict m)).Perm (elementDict m) :=
    List.perm_insertionSort _ _
  have hkeysperm := hperm.map Prod.fst
  have hsn : ((List.insertionSort elemValR (elementDict m)).map Prod.fst).Nodup :=
    hkeysperm.nodup_iff.mpr hdn
  have hsorted : List.Pairwise elemValR (List.insertionSort elemValR (elementDict m)) :=
    List.sorted_insertionSort _ _
  have hnum : ∀ p ∈ List.insertionSort elemValR (elementDict m),
      atomicNumberOf m p.1 = p.2 := by
    intro p hp
    have hpd : p ∈ elementDict m := hperm.subset hp
    have hlk := lookup_eq_of_mem_of_nodup (elementDict m) p.1 p.2 hdn hpd
    simp [atomicNumberOf, hlk]
  have hp2 : List.Pairwise (fun s t => atomicNumberOf m s ≤ atomicNumberOf m t)
      ((List.insertionSort elemValR (elementDict m)).map Prod.fst) := by
    refine List.pairwise_map.mpr (hsorted.imp_of_mem ?_)
    intro a b ha hb hr
    rw [hnum a ha, hnum b hb]
    exact hr
  have hmem : ∀ s, s ∈ (List.insertionSort elemValR (elementDict m)).map Prod.fst ↔
      s ∈ m.atoms.map Atom.symbol := by
    intro s
    rw [hkeysperm.mem_iff]
    have h := elementDictAux_mem m.atoms [] s
    simpa using h
  simp only [elements]
  by_cases hH : "H" ∈ (List.insertionSort elemValR (elementDict m)).map Prod.fst
  · rw [if_pos hH]
    have hner : "H" ∉ ((List.insertionSort elemValR (elementDict m)).map Prod.fst).erase "H" :=
      hsn.not_mem_erase
    refine ⟨?_, ?_, ?_, ?_⟩
    · refine List.Nodup.append (hsn.erase _) (by simp) ?_
      intro x hx hx2
      simp only [List.mem_singleton] at hx2
      subst hx2
      exact hner hx
    · intro s
      by_cases hs : s = "H"
      · subst hs
        constructor
        · intro _
          exact (hmem "H").mp hH
        · intro _
          exact List.mem_append_right _ (by simp)
      · rw [List.mem_append]
        constructor
        · rintro (h | h)
          · exact (hmem s).mp (List.mem_of_mem_erase h)
          · simp only [List.mem_singleton] at h
            exact absurd h hs
        · intro h
          exact Or.inl ((List.mem_erase_of_ne hs).mpr ((hmem s).mpr h))
    · rw [List.filter_append]
      have h1 : List.filter (fun s => decide (s ≠ "H")) ["H"] = [] := by simp
      have h2 : (((List.insertionSort elemValR (elementDict m)).map Prod.fst).erase "H").filter
          (fun s => decide (s ≠ "H"))
          = ((List.insertionSort elemValR (elementDict m)).map Prod.fst).erase "H" := by
        refine List.filter_eq_self.mpr ?_
        intro a ha
        simp only [decide_eq_true_eq]
        intro hae
        subst hae
        exact hner ha
      rw [h1, h2, List.append_nil]
      exact List.Pairwise.sublist (List.erase_sublist _ _) hp2
    · intro _
      exact List.getLast?_concat _
  · rw [if_neg hH]
    refine ⟨hsn, hmem, ?_, ?_⟩
    · have h2 : ((List.insertionSort elemValR (elementDict m)).map Prod.fst).filter
          (fun s => decide (s ≠ "H"))
          = (List.insertionSort elemValR (elementDict m)).map Prod.fst := by
        refine List.filter_eq_self.mpr ?_
        intro a ha
        simp only [decide_eq_true_eq]
        intro hae
        subst hae
        exact hH ha
      rw [h2]
      exact hp2
    · intro hHa
      exact absurd ((hmem "H").mpr hHa) hH

/-- Witness for C3 at the molecule `water`: the inner hypothesis (hydrogen
present) is discharged concretely, giving that `"H"` is last, and the other
conjuncts are instantiated. -/
theorem elements_distinct_sorted_H_last_witness :
    (elements water).Nodup ∧ (elements water).getLast? = some "H" :=
  ⟨(elements_distinct_sorted_H_last water).1,
    (elements_distinct_sorted_H_last water).2.2.2 (by decide)⟩

end Malt
